import Mathlib

/-!
Verification of the Malus-law polarization engine of
`Proyecto_Unidad3_Optica` against its natural-language specification.

The repository ships the UI caller (`src/main.py`) and a bootstrap script
(`src/run.py`); the numeric core `malus_calculations.py` — the module
providing `PolarizationSimulator` (methods `malus_law`,
`multiple_polarizers`, `theoretical_curve`) and the free function
`calculate_transmission_angle` — is imported by `src/main.py` but is not
part of the source tree.  Those operations are therefore modelled from the
specification (each such definition carries a doc comment starting with
`Modelled from the spec:`); the caller-side logic of `src/main.py` is
embedded from the source.

Real numbers stand in for IEEE-754 doubles; angle arithmetic uses
`Real.cos`, `Real.arccos`, `Real.sqrt` and `Real.pi`.
-/

noncomputable section

/-- Modelled from the spec: degrees-to-radians conversion used by the
missing `malus_calculations.py` (`angleDegrees converted to radians`). -/
def radians (deg : ℝ) : ℝ := deg * Real.pi / 180

/-- Modelled from the spec: radians-to-degrees conversion
(`converted to degrees`). -/
def degrees (rad : ℝ) : ℝ := rad * 180 / Real.pi

/-- Modelled from the spec: `PolarizationSimulator.malus_law` from the
missing `malus_calculations.py` — `intensity = I₀ · cos²(angleDegrees
converted to radians)` (spec §4.1, singleStagePolarize). -/
def malus_law (I0 angleDeg : ℝ) : ℝ := I0 * Real.cos (radians angleDeg) ^ 2

/-- Modelled from the spec: `PolarizationSimulator.multiple_polarizers`
from the missing `malus_calculations.py` — a stage-intensity sequence with
element 0 = I₀ and element k = element[k−1] · cos²(angles[k−1]) for k ≥ 1
(spec §4.1, chainPolarize). -/
def multiple_polarizers (I0 : ℝ) : List ℝ → List ℝ
  | [] => [I0]
  | a :: rest => I0 :: multiple_polarizers (malus_law I0 a) rest

/-- Modelled from the spec: `PolarizationSimulator.theoretical_curve` from
the missing `malus_calculations.py` — samples at
`angle = minAngle, minAngle+step, …` up to and including (or just below)
`maxAngle`, each paired with the single-stage intensity (spec §4.1,
theoreticalCurve). -/
def theoretical_curve (I0 minAngle maxAngle stepDeg : ℝ) : List (ℝ × ℝ) :=
  (List.range (⌊(maxAngle - minAngle) / stepDeg⌋₊ + 1)).map
    (fun (k : ℕ) => (minAngle + (k : ℝ) * stepDeg,
               malus_law I0 (minAngle + (k : ℝ) * stepDeg)))

/-- Modelled from the spec: `calculate_transmission_angle` from the missing
`malus_calculations.py` — the precondition checks, in order, of spec §4.1
(angleFromIntensity), then `arccos(√(targetIntensity / I0))` converted to
degrees.  Errors are raised (Python `ValueError`), modelled as
`Except.error`. -/
def calculate_transmission_angle (target I0 : ℝ) : Except String ℝ :=
  if target < 0 then
    Except.error "InvalidInput: intensity cannot be negative"
  else if I0 < target then
    Except.error "InvalidInput: target intensity exceeds incident intensity - violates energy conservation"
  else if I0 ≤ 0 ∧ 0 < target then
    Except.error "InvalidInput: unsatisfiable for non-positive incident intensity"
  else
    Except.ok (degrees (Real.arccos (Real.sqrt (target / I0))))

/-- Malus factor `cos²(radians a)` lies in `[0, 1]`, so one stage never
amplifies a non-negative intensity. -/
theorem malus_law_le_self {I0 : ℝ} (h : 0 ≤ I0) (a : ℝ) : malus_law I0 a ≤ I0 := by
  have hc : Real.cos (radians a) ^ 2 ≤ 1 := Real.cos_sq_le_one _
  calc I0 * Real.cos (radians a) ^ 2 ≤ I0 * 1 := by
        exact mul_le_mul_of_nonneg_left hc h
    _ = I0 := mul_one I0

theorem malus_law_nonneg {I0 : ℝ} (h : 0 ≤ I0) (a : ℝ) : 0 ≤ malus_law I0 a :=
  mul_nonneg h (sq_nonneg _)

theorem multiple_polarizers_ne_nil (I0 : ℝ) (l : List ℝ) :
    multiple_polarizers I0 l ≠ [] := by
  cases l <;> simp [multiple_polarizers]

theorem multiple_polarizers_head (I0 : ℝ) (l : List ℝ) :
    (multiple_polarizers I0 l).head? = some I0 := by
  cases l <;> rfl

theorem multiple_polarizers_length (I0 : ℝ) (l : List ℝ) :
    (multiple_polarizers I0 l).length = l.length + 1 := by
  induction l generalizing I0 with
  | nil => rfl
  | cons a rest ih => simp [multiple_polarizers, ih]

theorem multiple_polarizers_mem_nonneg {I0 : ℝ} (h : 0 ≤ I0) (l : List ℝ) :
    ∀ x ∈ multiple_polarizers I0 l, 0 ≤ x := by
  induction l generalizing I0 with
  | nil => intro x hx; simp [multiple_polarizers] at hx; simpa [hx] using h
  | cons a rest ih =>
    intro x hx
    simp only [multiple_polarizers, List.mem_cons] at hx
    rcases hx with hx | hx
    · simpa [hx] using h
    · exact ih (malus_law_nonneg h a) x hx

theorem multiple_polarizers_chain {I0 : ℝ} (h : 0 ≤ I0) (l : List ℝ) :
    List.Chain' (fun x y => y ≤ x) (multiple_polarizers I0 l) := by
  induction l generalizing I0 with
  | nil => simp [multiple_polarizers]
  | cons a rest ih =>
    rw [multiple_polarizers, List.chain'_cons']
    refine ⟨?_, ih (malus_law_nonneg h a)⟩
    intro b hb
    rw [multiple_polarizers_head] at hb
    cases hb
    exact malus_law_le_self h a

theorem multiple_polarizers_getD_succ (l : List ℝ) :
    ∀ (I0 : ℝ) (k : ℕ), k < l.length →
      (multiple_polarizers I0 l).getD (k + 1) 0 =
        malus_law ((multiple_polarizers I0 l).getD k 0) (l.getD k 0) := by
  induction l with
  | nil => intro I0 k hk; simp at hk
  | cons a rest ih =>
    intro I0 k hk
    cases k with
    | zero =>
      have hh : (multiple_polarizers (malus_law I0 a) rest).getD 0 0 =
          malus_law I0 a := by
        cases rest <;> rfl
      simpa [multiple_polarizers] using hh
    | succ j =>
      have hj : j < rest.length := by simpa using Nat.lt_of_succ_lt_succ hk
      simpa [multiple_polarizers] using ih (malus_law I0 a) j hj

/-- C2: `multiple_polarizers` returns a stage sequence of length
`angles.length + 1` whose element 0 is `I0` and whose element `k + 1` is
element `k` times `cos²(angles[k] in radians)`; for `I0 ≥ 0` the sequence
is non-increasing from element to element and every element — in
particular the last — is non-negative. -/
theorem C2_chain_polarize_invariants (I0 : ℝ) (angles : List ℝ) (h : 0 ≤ I0) :
    (multiple_polarizers I0 angles).length = angles.length + 1 ∧
    (multiple_polarizers I0 angles).head? = some I0 ∧
    (∀ k : ℕ, k < angles.length →
      (multiple_polarizers I0 angles).getD (k + 1) 0 =
        (multiple_polarizers I0 angles).getD k 0 *
          Real.cos (radians (angles.getD k 0)) ^ 2) ∧
    List.Chain' (fun x y => y ≤ x) (multiple_polarizers I0 angles) ∧
    (∀ x ∈ multiple_polarizers I0 angles, 0 ≤ x) ∧
    0 ≤ (multiple_polarizers I0 angles).getLastD 0 := by
  refine ⟨multiple_polarizers_length I0 angles,
         multiple_polarizers_head I0 angles,
         fun k hk => multiple_polarizers_getD_succ angles I0 k hk,
         multiple_polarizers_chain h angles,
         multiple_polarizers_mem_nonneg h angles, ?_⟩
  have hne := multiple_polarizers_ne_nil I0 angles
  have hmem : (multiple_polarizers I0 angles).getLastD 0 ∈
      multiple_polarizers I0 angles := by
    rw [List.getLastD_eq_getLast?, List.getLast?_eq_getLast _ hne]
    exact List.getLast_mem hne
  exact multiple_polarizers_mem_nonneg h angles _ hmem

/-- Witness for C2 at `I0 = 1`, `angles = [60]`. -/
theorem C2_witness :
    (0 : ℝ) ≤ 1 ∧
    ((multiple_polarizers 1 [60]).length = [(60 : ℝ)].length + 1 ∧
     (multiple_polarizers 1 [60]).head? = some 1 ∧
     (∀ k : ℕ, k < [(60 : ℝ)].length →
       (multiple_polarizers 1 [60]).getD (k + 1) 0 =
         (multiple_polarizers 1 [60]).getD k 0 *
           Real.cos (radians ([(60 : ℝ)].getD k 0)) ^ 2) ∧
     List.Chain' (fun x y => y ≤ x) (multiple_polarizers 1 [60]) ∧
     (∀ x ∈ multiple_polarizers 1 [60], 0 ≤ x) ∧
     0 ≤ (multiple_polarizers 1 [60]).getLastD 0) :=
  ⟨zero_le_one, C2_chain_polarize_invariants 1 [60] zero_le_one⟩

/-- C1: for every incident intensity `I0 ≥ 0` and every real angle, the
single-stage law returns `I0 · cos²(angle in radians)`, and this value lies
in the closed interval `[0, I0]`. -/
theorem C1_malus_law_formula_and_bounds (I0 θ : ℝ) (h : 0 ≤ I0) :
    malus_law I0 θ = I0 * Real.cos (θ * Real.pi / 180) ^ 2 ∧
    0 ≤ malus_law I0 θ ∧ malus_law I0 θ ≤ I0 :=
  ⟨rfl, malus_law_nonneg h θ, malus_law_le_self h θ⟩

/-- Witness for C1 at `I0 = 1`, `θ = 45`. -/
theorem C1_witness :
    (0 : ℝ) ≤ 1 ∧
    (malus_law 1 45 = 1 * Real.cos (45 * Real.pi / 180) ^ 2 ∧
     0 ≤ malus_law 1 45 ∧ malus_law 1 45 ≤ 1) :=
  ⟨zero_le_one, C1_malus_law_formula_and_bounds 1 45 zero_le_one⟩

/-- C3: whenever the target intensity is negative, exceeds the incident
intensity, or is positive while the incident intensity is non-positive,
`calculate_transmission_angle` fails with an InvalidInput error instead of
returning a sentinel value. -/
theorem C3_inverse_rejects_invalid_target (target I0 : ℝ)
    (h : target < 0 ∨ I0 < target ∨ (I0 ≤ 0 ∧ 0 < target)) :
    ∃ msg, calculate_transmission_angle target I0 = Except.error msg := by
  unfold calculate_transmission_angle
  rcases h with h1 | h2 | ⟨h3, h4⟩
  · exact ⟨_, if_pos h1⟩
  · by_cases h1 : target < 0
    · exact ⟨_, if_pos h1⟩
    · rw [if_neg h1, if_pos h2]
      exact ⟨_, rfl⟩
  · have h2 : I0 < target := lt_of_le_of_lt h3 h4
    by_cases h1 : target < 0
    · exact ⟨_, if_pos h1⟩
    · rw [if_neg h1, if_pos h2]
      exact ⟨_, rfl⟩

/-- Witness for C3 at `target = -1`, `I0 = 1`. -/
theorem C3_witness :
    ((-1 : ℝ) < 0 ∨ (1 : ℝ) < -1 ∨ ((1 : ℝ) ≤ 0 ∧ (0 : ℝ) < -1)) ∧
    ∃ msg, calculate_transmission_angle (-1) 1 = Except.error msg :=
  ⟨Or.inl (by norm_num),
   C3_inverse_rejects_invalid_target (-1) 1 (Or.inl (by norm_num))⟩

theorem calculate_transmission_angle_ok {target I0 : ℝ}
    (hI : 0 < I0) (h0 : 0 ≤ target) (h1 : target ≤ I0) :
    calculate_transmission_angle target I0 =
      Except.ok (degrees (Real.arccos (Real.sqrt (target / I0)))) := by
  unfold calculate_transmission_angle
  rw [if_neg (not_lt.2 h0), if_neg (not_lt.2 h1), if_neg]
  rintro ⟨hle, -⟩
  exact absurd hI (not_lt.2 hle)

theorem sqrt_ratio_mem_unit {target I0 : ℝ}
    (hI : 0 < I0) (h1 : target ≤ I0) :
    0 ≤ Real.sqrt (target / I0) ∧ Real.sqrt (target / I0) ≤ 1 :=
  ⟨Real.sqrt_nonneg _, Real.sqrt_le_one.2 ((div_le_one hI).2 h1)⟩

theorem radians_degrees (x : ℝ) : radians (degrees x) = x := by
  unfold radians degrees
  field_simp

theorem degrees_radians (x : ℝ) : degrees (radians x) = x := by
  unfold radians degrees
  field_simp

theorem degrees_nonneg {a : ℝ} (h : 0 ≤ a) : 0 ≤ degrees a :=
  div_nonneg (mul_nonneg h (by norm_num)) Real.pi_pos.le

theorem degrees_le_ninety {a : ℝ} (h : a ≤ Real.pi / 2) : degrees a ≤ 90 := by
  unfold degrees
  rw [div_le_iff₀ Real.pi_pos]
  nlinarith [Real.pi_pos]

theorem radians_nonneg {θ : ℝ} (h : 0 ≤ θ) : 0 ≤ radians θ :=
  div_nonneg (mul_nonneg h Real.pi_pos.le) (by norm_num)

theorem radians_le_pi_div_two {θ : ℝ} (h : θ ≤ 90) : radians θ ≤ Real.pi / 2 := by
  unfold radians
  rw [div_le_iff₀ (by norm_num : (0:ℝ) < 180)]
  nlinarith [Real.pi_pos]

/-- C4: for `I0 > 0` and `target ∈ [0, I0]`, the inverse returns
`arccos(√(target / I0))` in degrees, which lies in `[0°, 90°]` and is the
unique solution of the Malus law there; `target = 0` yields `90°` and
`target = I0` yields `0°`. -/
theorem C4_inverse_principal_solution (target I0 : ℝ)
    (hI : 0 < I0) (h0 : 0 ≤ target) (h1 : target ≤ I0) :
    calculate_transmission_angle target I0 =
      Except.ok (degrees (Real.arccos (Real.sqrt (target / I0)))) ∧
    0 ≤ degrees (Real.arccos (Real.sqrt (target / I0))) ∧
    degrees (Real.arccos (Real.sqrt (target / I0))) ≤ 90 ∧
    (∀ θ : ℝ, 0 ≤ θ → θ ≤ 90 → malus_law I0 θ = target →
      θ = degrees (Real.arccos (Real.sqrt (target / I0)))) ∧
    (target = 0 → calculate_transmission_angle target I0 = Except.ok 90) ∧
    (target = I0 → calculate_transmission_angle target I0 = Except.ok 0) := by
  obtain ⟨hx0, hx1⟩ := sqrt_ratio_mem_unit hI h1
  refine ⟨calculate_transmission_angle_ok hI h0 h1,
    degrees_nonneg (Real.arccos_nonneg _),
    degrees_le_ninety (Real.arccos_le_pi_div_two.2 hx0), ?_, ?_, ?_⟩
  · intro θ hθ0 hθ90 heq
    have hr0 : 0 ≤ radians θ := radians_nonneg hθ0
    have hr2 : radians θ ≤ Real.pi / 2 := radians_le_pi_div_two hθ90
    have hcos0 : 0 ≤ Real.cos (radians θ) :=
      Real.cos_nonneg_of_neg_pi_div_two_le_of_le
        (by linarith [Real.pi_pos]) hr2
    have hsq : Real.cos (radians θ) ^ 2 = target / I0 := by
      rw [eq_div_iff hI.ne', mul_comm]
      exact heq
    have hs : Real.sqrt (target / I0) = Real.cos (radians θ) := by
      rw [← hsq, Real.sqrt_sq hcos0]
    have harc : Real.arccos (Real.sqrt (target / I0)) = radians θ := by
      rw [hs, Real.arccos_cos hr0 (by linarith [Real.pi_pos])]
    rw [harc, degrees_radians]
  · intro ht
    subst ht
    rw [calculate_transmission_angle_ok hI le_rfl hI.le]
    have : degrees (Real.arccos (Real.sqrt (0 / I0))) = 90 := by
      rw [zero_div, Real.sqrt_zero, Real.arccos_zero]
      unfold degrees
      rw [div_eq_iff Real.pi_ne_zero]
      ring
    rw [this]
  · intro ht
    subst ht
    rw [calculate_transmission_angle_ok hI h0 le_rfl]
    have : degrees (Real.arccos (Real.sqrt (target / target))) = 0 := by
      rw [div_self (by linarith : target ≠ 0), Real.sqrt_one, Real.arccos_one]
      unfold degrees
      rw [zero_mul, zero_div]
    rw [this]

/-- Witness for C4 at `target = 1`, `I0 = 1`. -/
theorem C4_witness :
    (0 : ℝ) < 1 ∧ (0 : ℝ) ≤ 1 ∧ (1 : ℝ) ≤ 1 ∧
    (calculate_transmission_angle 1 1 =
       Except.ok (degrees (Real.arccos (Real.sqrt ((1 : ℝ) / 1)))) ∧
     0 ≤ degrees (Real.arccos (Real.sqrt ((1 : ℝ) / 1))) ∧
     degrees (Real.arccos (Real.sqrt ((1 : ℝ) / 1))) ≤ 90 ∧
     (∀ θ : ℝ, 0 ≤ θ → θ ≤ 90 → malus_law 1 θ = 1 →
       θ = degrees (Real.arccos (Real.sqrt ((1 : ℝ) / 1)))) ∧
     ((1 : ℝ) = 0 → calculate_transmission_angle 1 1 = Except.ok 90) ∧
     ((1 : ℝ) = 1 → calculate_transmission_angle 1 1 = Except.ok 0)) :=
  ⟨one_pos, zero_le_one, le_rfl,
   C4_inverse_principal_solution 1 1 one_pos zero_le_one le_rfl⟩

/-- C5: substituting the angle returned by the inverse back into the
single-stage law reproduces the target exactly in the real model, hence in
particular within the tolerance `max 1e-6 (1e-6 · |target|)`. -/
theorem C5_roundtrip (target I0 : ℝ)
    (hI : 0 < I0) (h0 : 0 ≤ target) (h1 : target ≤ I0) :
    ∃ θ, calculate_transmission_angle target I0 = Except.ok θ ∧
      malus_law I0 θ = target ∧
      |malus_law I0 θ - target| ≤ max ((1 : ℝ)/1000000) (1/1000000 * |target|) := by
  obtain ⟨hx0, hx1⟩ := sqrt_ratio_mem_unit hI h1
  refine ⟨degrees (Real.arccos (Real.sqrt (target / I0))),
    calculate_transmission_angle_ok hI h0 h1, ?_⟩
  have heq : malus_law I0 (degrees (Real.arccos (Real.sqrt (target / I0)))) =
      target := by
    unfold malus_law
    rw [radians_degrees, Real.cos_arccos (by linarith) hx1,
        Real.sq_sqrt (div_nonneg h0 hI.le), mul_div_cancel₀ _ hI.ne']
  refine ⟨heq, ?_⟩
  rw [heq, sub_self, abs_zero]
  exact le_max_of_le_left (by norm_num)

/-- Witness for C5 at `target = 1/2`, `I0 = 1`. -/
theorem C5_witness :
    (0 : ℝ) < 1 ∧ (0 : ℝ) ≤ 1/2 ∧ (1 : ℝ)/2 ≤ 1 ∧
    ∃ θ, calculate_transmission_angle (1/2) 1 = Except.ok θ ∧
      malus_law 1 θ = 1/2 ∧
      |malus_law 1 θ - 1/2| ≤ max ((1 : ℝ)/1000000) (1/1000000 * |(1 : ℝ)/2|) :=
  ⟨one_pos, by norm_num, by norm_num,
   C5_roundtrip (1/2) 1 one_pos (by norm_num) (by norm_num)⟩

theorem curve_default_count : ⌊((180:ℝ) - 0) / (0.1:ℝ)⌋₊ = 1800 := by
  have h : ((180:ℝ) - 0) / (0.1:ℝ) = 1800 := by norm_num
  rw [h]
  exact Nat.floor_ofNat 1800

theorem theoretical_curve_default_length (I0 : ℝ) :
    (theoretical_curve I0 0 180 0.1).length = 1801 := by
  unfold theoretical_curve
  rw [List.length_map, List.length_range, curve_default_count]

theorem theoretical_curve_default_getElem (I0 : ℝ) (k : ℕ) (hk : k < 1801) :
    (theoretical_curve I0 0 180 0.1)[k]? =
      some ((0:ℝ) + (k:ℝ) * 0.1, malus_law I0 ((0:ℝ) + (k:ℝ) * 0.1)) := by
  unfold theoretical_curve
  rw [List.getElem?_map, List.getElem?_range (by rw [curve_default_count]; exact hk)]
  rfl

theorem radians_ninety : radians 90 = Real.pi / 2 := by
  unfold radians
  ring

theorem malus_law_at_ninety (I0 : ℝ) : malus_law I0 90 = 0 := by
  unfold malus_law
  rw [radians_ninety, Real.cos_pi_div_two]
  ring

theorem malus_law_at_zero (I0 : ℝ) : malus_law I0 0 = I0 := by
  unfold malus_law radians
  simp

/-- C6: with the default parameters `minAngle = 0`, `maxAngle = 180`,
`step = 0.1` the theoretical curve has exactly 1801 samples, sample `k`
being the angle `k · 0.1` paired with its single-stage intensity; for
`I0 = 1` the first sample is `(0°, 1.0)` and sample 900 — the one exactly
at 90° — has intensity 0. -/
theorem C6_theoretical_curve_default (I0 : ℝ) :
    (theoretical_curve I0 0 180 0.1).length = 1801 ∧
    (∀ k : ℕ, k < 1801 → (theoretical_curve I0 0 180 0.1)[k]? =
        some ((0:ℝ) + (k:ℝ) * 0.1, malus_law I0 ((0:ℝ) + (k:ℝ) * 0.1))) ∧
    (theoretical_curve 1 0 180 0.1)[0]? = some (0, 1) ∧
    (theoretical_curve 1 0 180 0.1)[900]? = some (90, 0) := by
  refine ⟨theoretical_curve_default_length I0,
    fun k hk => theoretical_curve_default_getElem I0 k hk, ?_, ?_⟩
  · rw [theoretical_curve_default_getElem 1 0 (by norm_num)]
    norm_num [malus_law_at_zero]
  · rw [theoretical_curve_default_getElem 1 900 (by norm_num)]
    have ha : (0:ℝ) + ((900:ℕ):ℝ) * 0.1 = 90 := by norm_num
    rw [ha, malus_law_at_ninety]

/-- Witness for C6 at `I0 = 2`, sample index `k = 5`. -/
theorem C6_witness :
    5 < 1801 ∧
    (theoretical_curve 2 0 180 0.1)[5]? =
      some ((0:ℝ) + ((5:ℕ):ℝ) * 0.1, malus_law 2 ((0:ℝ) + ((5:ℕ):ℝ) * 0.1)) :=
  ⟨by norm_num, (C6_theoretical_curve_default 2).2.1 5 (by norm_num)⟩

/-- Modelled from the spec: classification of the caller-supplied angle as
a finite real or one of the IEEE non-finite values (NaN, ±∞); the missing
`malus_calculations.py` receives a double here, and spec §4.1 requires
non-finite input to be rejected. -/
inductive AngleInput : Type
  | finite (x : ℝ)
  | nan
  | posInf
  | negInf

/-- Modelled from the spec: the validating single-stage operation of spec
§4.1 (singleStagePolarize) — always succeeds on a finite angle, and fails
with an InvalidInput error on NaN or ±∞ rather than propagating NaN. -/
def singleStagePolarize (I0 : ℝ) : AngleInput → Except String ℝ
  | AngleInput.finite x => Except.ok (malus_law I0 x)
  | AngleInput.nan => Except.error "InvalidInput: non-finite angle"
  | AngleInput.posInf => Except.error "InvalidInput: non-finite angle"
  | AngleInput.negInf => Except.error "InvalidInput: non-finite angle"

/-- C7: the single-stage operation never fails on a finite angle, and on
every non-finite angle (NaN or ±∞) it fails with an InvalidInput error
instead of returning a value. -/
theorem C7_single_stage_totality (I0 : ℝ) (a : AngleInput) :
    (∀ x : ℝ, a = AngleInput.finite x →
      singleStagePolarize I0 a = Except.ok (malus_law I0 x)) ∧
    ((∀ x : ℝ, a ≠ AngleInput.finite x) →
      ∃ msg, singleStagePolarize I0 a = Except.error msg) := by
  cases a with
  | finite x =>
    refine ⟨?_, ?_⟩
    · rintro y hy
      cases hy
      rfl
    · intro hne
      exact absurd rfl (hne x)
  | nan =>
    refine ⟨?_, fun _ => ⟨_, rfl⟩⟩
    intro y hy
    cases hy
  | posInf =>
    refine ⟨?_, fun _ => ⟨_, rfl⟩⟩
    intro y hy
    cases hy
  | negInf =>
    refine ⟨?_, fun _ => ⟨_, rfl⟩⟩
    intro y hy
    cases hy

/-- Witness for C7 at `I0 = 1` with the finite angle 45 and with NaN. -/
theorem C7_witness :
    singleStagePolarize 1 (AngleInput.finite 45) = Except.ok (malus_law 1 45) ∧
    ∃ msg, singleStagePolarize 1 AngleInput.nan = Except.error msg :=
  ⟨(C7_single_stage_totality 1 (AngleInput.finite 45)).1 45 rfl,
   (C7_single_stage_totality 1 AngleInput.nan).2 (fun x h => by cases h)⟩

/-- Modelled from the spec: the `PolarizationSimulator` class of the
missing `malus_calculations.py` — its only state is the incident
intensity `I0` (spec §4.1: "State: one field, the incident intensity"). -/
structure PolarizationSimulator : Type where
  I0 : ℝ

/-- Modelled from the spec: the forward operation as a state-passing call,
returning its result together with the (unchanged) engine state. -/
def runForward (s : PolarizationSimulator) (a : ℝ) : ℝ × PolarizationSimulator :=
  (malus_law s.I0 a, s)

/-- Modelled from the spec: the chained operation as a state-passing call. -/
def runChain (s : PolarizationSimulator) (angles : List ℝ) :
    List ℝ × PolarizationSimulator :=
  (multiple_polarizers s.I0 angles, s)

/-- Modelled from the spec: the sweep operation as a state-passing call. -/
def runSweep (s : PolarizationSimulator) (mn mx stp : ℝ) :
    List (ℝ × ℝ) × PolarizationSimulator :=
  (theoretical_curve s.I0 mn mx stp, s)

/-- Modelled from the spec: the inverse operation as a state-passing call. -/
def runInverse (s : PolarizationSimulator) (t : ℝ) :
    Except String ℝ × PolarizationSimulator :=
  (calculate_transmission_angle t s.I0, s)

/-- C8: every engine operation leaves the engine state — in particular its
`I0` field — unchanged, and repeating a call on the state left by the
first call returns an identical result: the operations are deterministic
pure functions of their arguments and `I0`. -/
theorem C8_purity_determinism (s : PolarizationSimulator) (a : ℝ)
    (angles : List ℝ) (mn mx stp t : ℝ) :
    ((runForward s a).2 = s ∧
      (runForward (runForward s a).2 a).1 = (runForward s a).1) ∧
    ((runChain s angles).2 = s ∧
      (runChain (runChain s angles).2 angles).1 = (runChain s angles).1) ∧
    ((runSweep s mn mx stp).2 = s ∧
      (runSweep (runSweep s mn mx stp).2 mn mx stp).1 = (runSweep s mn mx stp).1) ∧
    ((runInverse s t).2 = s ∧
      (runInverse (runInverse s t).2 t).1 = (runInverse s t).1) ∧
    (runForward s a).2.I0 = s.I0 ∧
    (runChain s angles).2.I0 = s.I0 ∧
    (runSweep s mn mx stp).2.I0 = s.I0 ∧
    (runInverse s t).2.I0 = s.I0 :=
  ⟨⟨rfl, rfl⟩, ⟨rfl, rfl⟩, ⟨rfl, rfl⟩, ⟨rfl, rfl⟩, rfl, rfl, rfl, rfl⟩

/-- From `src/main.py`, `main`, lines 196–200: the stage-intensity list the
UI builds — a fast path `[I0, malus_law(angles[0])]` when exactly two
polarizers are configured, and `multiple_polarizers(angles)` otherwise. -/
def mainIntensities (I0 : ℝ) (numPolarizers : ℕ) (angles : List ℝ) : List ℝ :=
  if numPolarizers = 2 then [I0, malus_law I0 (angles.headD 0)]
  else multiple_polarizers I0 angles

/-- C9: the UI's two-polarizer fast path agrees with the general chain —
for every `I0` and angle `a`, the list built for `num_polarizers = 2`
equals `multiple_polarizers` on the same single-angle configuration. -/
theorem C9_fast_path_refines_chain (I0 a : ℝ) :
    mainIntensities I0 2 [a] = multiple_polarizers I0 [a] := rfl

/-- From `src/main.py`, `main`, lines 243–256: the angle-calculator path —
the `st.number_input` widget clamps the target to `[0.0, I0]`, the inverse
is invoked only when `target_intensity > 0`, and a raised `ValueError` is
rendered through the `st.error` handler.  The function returns the error
message shown by that handler, or `none` when no error is shown. -/
def uiAngleCalcShownError (I0 target : ℝ) : Option String :=
  if 0 < target then
    match calculate_transmission_angle target I0 with
    | Except.ok _ => none
    | Except.error e => some e
  else none

/-- C10: under the widget clamp `0 ≤ target ≤ I0`, the `st.error` handler
branch of the angle calculator never fires: the inverse raises only for
`target < 0` or `target > I0`, which the guards exclude. -/
theorem C10_error_handler_unreachable (I0 target : ℝ)
    (h0 : 0 ≤ target) (h1 : target ≤ I0) :
    uiAngleCalcShownError I0 target = none := by
  unfold uiAngleCalcShownError
  by_cases hp : 0 < target
  · rw [if_pos hp]
    rw [calculate_transmission_angle_ok (lt_of_lt_of_le hp h1) h0 h1]
  · rw [if_neg hp]

/-- Witness for C10 at `I0 = 1`, `target = 1/2`. -/
theorem C10_witness :
    (0 : ℝ) ≤ 1/2 ∧ (1 : ℝ)/2 ≤ 1 ∧ uiAngleCalcShownError 1 (1/2) = none :=
  ⟨by norm_num, by norm_num,
   C10_error_handler_unreachable 1 (1/2) (by norm_num) (by norm_num)⟩
